import Mathlib

/-!
Shallow embedding of the go-flows core pieces under verification:
five-tuple flow-key construction, the per-flow timer engine, the TCP
teardown state machine, the buffer-pool release operation, and packet
filter collections. Definitions are translated from the Go source;
machine byte values are modelled as Nat (raw packet bytes are 0..255 and
no arithmetic is performed on them), Go int values as Int, and Go
runtime panics (out-of-bounds index, negative make length) as Option
results with none standing for the panic.
-/

/-- Result of the Go bytes.Compare function on byte slices:
lexicographic comparison where a proper prefix is smaller. -/
def compareBytes : List Nat → List Nat → Ordering
  | [], [] => Ordering.eq
  | [], _ :: _ => Ordering.lt
  | _ :: _, [] => Ordering.gt
  | a :: as, b :: bs =>
    if a < b then Ordering.lt
    else if b < a then Ordering.gt
    else compareBytes as bs

/-- Embedding of gopacket Endpoint.LessThan: bytes.Compare of the raw
bytes is lt. -/
def lexLt (a b : List Nat) : Bool :=
  match compareBytes a b with
  | Ordering.lt => true
  | _ => false

/-- Byte-lexicographic less-or-equal: bytes.Compare is not gt. -/
def lexLe (a b : List Nat) : Bool :=
  match compareBytes a b with
  | Ordering.gt => false
  | _ => true

/-- Transport layer type as seen by the fivetuple function: the four
recognized gopacket layer types plus any other transport. -/
inductive LayerType where
  | tcp
  | udp
  | icmp4
  | icmp6
  | other (n : Nat)
deriving DecidableEq

/-- Embedding of layers.LayerClassIPControl.Contains on transport layer
types: true exactly for ICMPv4 and ICMPv6. -/
def ipControl : LayerType → Bool
  | LayerType.icmp4 => true
  | LayerType.icmp6 => true
  | _ => false

/-- Raw five-tuple data extracted from a packet that has both a network
and a transport layer: raw address bytes, transport layer type, and raw
port bytes, as in lines 111 to 115 of the fivetuple function. -/
structure RawTuple where
  srcIP : List Nat
  dstIP : List Nat
  proto : LayerType
  srcPort : List Nat
  dstPort : List Nat
deriving DecidableEq

/-- Direction canonicalization, lines 116 to 131 of the fivetuple
function: swap addresses (and ports, except for IP-control transports)
when the destination address is smaller, or when the addresses are equal
and the source port is smaller; the returned Bool is the forward bit. -/
def canonicalize (t : RawTuple) : RawTuple × Bool :=
  if lexLt t.dstIP t.srcIP then
    if ipControl t.proto then
      ({ t with srcIP := t.dstIP, dstIP := t.srcIP }, false)
    else
      ({ srcIP := t.dstIP, dstIP := t.srcIP, proto := t.proto,
         srcPort := t.dstPort, dstPort := t.srcPort }, false)
  else if compareBytes t.srcIP t.dstIP = Ordering.eq then
    if lexLt t.srcPort t.dstPort then
      if ipControl t.proto then
        ({ t with srcIP := t.dstIP, dstIP := t.srcIP }, false)
      else
        ({ srcIP := t.dstIP, dstIP := t.srcIP, proto := t.proto,
           srcPort := t.dstPort, dstPort := t.srcPort }, false)
    else (t, true)
  else (t, true)

/-- Canonicalization as worded by the specification, rules 1 to 3 of the
key canonicalization section: rule 1 swaps addresses and, unless the
transport is an IP-control type, also ports, when dstIP is smaller
byte-lexicographically; rule 2 swaps addresses (a no-op) and ports under
the same exemption when the addresses are equal and srcPort is smaller;
rule 3 sets forward to true exactly when no swap occurred, that is, when
neither rule fired. -/
def spec_canonicalize (t : RawTuple) : RawTuple × Bool :=
  if lexLt t.dstIP t.srcIP then
    ({ srcIP := t.dstIP, dstIP := t.srcIP, proto := t.proto,
       srcPort := if ipControl t.proto then t.srcPort else t.dstPort,
       dstPort := if ipControl t.proto then t.dstPort else t.srcPort }, false)
  else if compareBytes t.srcIP t.dstIP = Ordering.eq ∧ lexLt t.srcPort t.dstPort then
    ({ srcIP := t.dstIP, dstIP := t.srcIP, proto := t.proto,
       srcPort := if ipControl t.proto then t.srcPort else t.dstPort,
       dstPort := if ipControl t.proto then t.dstPort else t.srcPort }, false)
  else (t, true)

/-- Protocol byte written into the key, lines 132 to 142: the IANA
protocol number for the four recognized transports, zero otherwise. -/
def protoByte : LayerType → Nat
  | LayerType.tcp => 6
  | LayerType.udp => 17
  | LayerType.icmp4 => 1
  | LayerType.icmp6 => 58
  | LayerType.other _ => 0

/-- Semantics of the Go copy builtin into a zeroed destination region of
length n: the first n source bytes, zero-padded when the source is
shorter. -/
def fill (n : Nat) (xs : List Nat) : List Nat :=
  xs.take n ++ List.replicate (n - xs.length) 0

/-- Embedding of the fivetuple function (after the nil-layer early
returns): canonicalize the tuple, then serialize it into a 13-byte key
when the source address has 4 bytes, a 37-byte key when it has 16 bytes,
and reject the packet otherwise. none models the nil FlowKey return. -/
def fivetuple (t : RawTuple) : Option (List Nat × Bool) :=
  let c := (canonicalize t).1
  let forward := (canonicalize t).2
  if c.srcIP.length = 4 then
    some (fill 4 c.srcIP ++ fill 4 c.dstIP ++ [protoByte c.proto] ++
          fill 2 c.srcPort ++ fill 2 c.dstPort, forward)
  else if c.srcIP.length = 16 then
    some (fill 16 c.srcIP ++ fill 16 c.dstIP ++ [protoByte c.proto] ++
          fill 2 c.srcPort ++ fill 2 c.dstPort, forward)
  else
    none

/-- Accessor of the fiveTuple4 SrcIP method: bytes 0 to 3 of the key. -/
def fiveTuple4SrcIP (k : List Nat) : List Nat := k.take 4

/-- Accessor of the fiveTuple4 DstIP method: bytes 4 to 7 of the key. -/
def fiveTuple4DstIP (k : List Nat) : List Nat := (k.drop 4).take 4

/-- Accessor of the fiveTuple4 SrcPort method: bytes 9 to 10 of the key. -/
def fiveTuple4SrcPort (k : List Nat) : List Nat := (k.drop 9).take 2

/-- Accessor of the fiveTuple4 DstPort method: bytes 11 to 12 of the key. -/
def fiveTuple4DstPort (k : List Nat) : List Nat := (k.drop 11).take 2

/-- The packet with the reversed raw five-tuple: addresses and ports
exchanged, same transport. -/
def reverseTuple (t : RawTuple) : RawTuple :=
  { srcIP := t.dstIP, dstIP := t.srcIP, proto := t.proto,
    srcPort := t.dstPort, dstPort := t.srcPort }

/-- Embedding of EventContext restricted to the field the timer code
reads: the scheduled time When (DateTimeNanoseconds, modelled as Nat). -/
structure EventContext where
  When : Nat
deriving DecidableEq

/-- Embedding of funcEntry: a timer callback (kept as an opaque tag,
since only the identity of the invoked entry matters) and its context. -/
structure funcEntry where
  function : Nat
  context : EventContext
deriving DecidableEq

/-- Zero value of funcEntry, as produced by the Go make builtin. -/
def zeroEntry : funcEntry := ⟨0, ⟨0⟩⟩

/-- Embedding of makeFuncEntries: a zeroed array of two entries. -/
def makeFuncEntries : List funcEntry := List.replicate 2 zeroEntry

/-- Whether an entry fires at time w: its scheduled time is nonzero and
at most w. -/
def eligible (w : Nat) (v : funcEntry) : Bool :=
  v.context.When != 0 && decide (v.context.When ≤ w)

/-- Loop of the expire method over the remaining entries. The index i is
the TimerID of the head entry, next is the accumulator of the earliest
future expiry seen so far (zero meaning none seen). Returns the updated
entries, the final next, and the trace of (TimerID, entry) invocations
in the order the loop performed them; the callback of a traced entry was
invoked with its stored context and the expiry time w. -/
def expireGo (w : Nat) : List funcEntry → Nat → Nat → List funcEntry × Nat × List (Nat × funcEntry)
  | [], _, next => ([], next, [])
  | v :: rest, i, next =>
    if v.context.When ≠ 0 then
      if v.context.When ≤ w then
        let r := expireGo w rest (i + 1) next
        ({ v with context := ⟨0⟩ } :: r.1, r.2.1, (i, v) :: r.2.2)
      else
        let next2 := if next = 0 ∨ v.context.When ≤ next then v.context.When else next
        let r := expireGo w rest (i + 1) next2
        (v :: r.1, r.2.1, r.2.2)
    else
      let r := expireGo w rest (i + 1) next
      (v :: r.1, r.2.1, r.2.2)

/-- Embedding of the funcEntries expire method: run the loop over all
entries starting at TimerID 0 with next initialized to zero. -/
def funcEntries.expire (fe : List funcEntry) (w : Nat) :
    List funcEntry × Nat × List (Nat × funcEntry) :=
  expireGo w fe 0 0

/-- Scheduled times of the pending entries of a timer array: the When
values that are nonzero. -/
def pendingWhens (fe : List funcEntry) : List Nat :=
  (fe.filter fun v => v.context.When != 0).map fun v => v.context.When

/-- Embedding of the funcEntries addTimer method. The Go code appends
make(funcEntries, len(fep)-int(id)+1) when id is not below the current
length, then stores at index id; a negative make length and an
out-of-range store are Go runtime panics, modelled as none. -/
def funcEntries.addTimer (fe : List funcEntry) (id : Int) (f : Nat)
    (context : EventContext) : Option (List funcEntry) :=
  let grown : Option (List funcEntry) :=
    if (fe.length : Int) ≤ id then
      if ((fe.length : Int) - id + 1) < 0 then none
      else some (fe ++ List.replicate ((fe.length : Int) - id + 1).toNat zeroEntry)
    else some fe
  match grown with
  | none => none
  | some fep =>
    if 0 ≤ id ∧ id.toNat < fep.length then
      some (fep.set id.toNat ⟨f, context⟩)
    else none

/-- Embedding of the funcEntries hasTimer method: false when the id is
out of range or the stored When is zero. -/
def funcEntries.hasTimer (fe : List funcEntry) (id : Int) : Bool :=
  if (fe.length : Int) ≤ id ∨ id < 0 then false
  else if (fe.getD id.toNat zeroEntry).context.When = 0 then false
  else true

/-- The four TCP teardown bits of a tcpFlow. -/
structure TCPState where
  srcFIN : Bool
  dstFIN : Bool
  dstACK : Bool
  srcACK : Bool
deriving DecidableEq

/-- The parts of a TCP packet event read by the tcpFlow Event method:
the RST, FIN and ACK flags and the forward bit of the event context. -/
structure TCPPacket where
  rst : Bool
  fin : Bool
  ack : Bool
  forward : Bool
deriving DecidableEq

/-- Export reasons of the flows package that this development needs. -/
inductive FlowEndReason where
  | endOfFlow
  | idleTimeout
  | activeTimeout
deriving DecidableEq

/-- Embedding of the tcpFlow Event method body after the BaseFlow.Event
call, for a flow that is still active: an RST exports immediately with
reason end; otherwise the FIN and ACK bits of the matching direction are
recorded, and the flow exports with reason end when all four bits are
set. Returns the updated bits and the export performed, if any. -/
def tcpEvent (flow : TCPState) (tcp : TCPPacket) : TCPState × Option FlowEndReason :=
  if tcp.rst then (flow, some FlowEndReason.endOfFlow)
  else
    let flow1 :=
      if tcp.forward then
        let fl := if tcp.fin then { flow with srcFIN := true } else flow
        if fl.dstFIN && tcp.ack then { fl with dstACK := true } else fl
      else
        let fl := if tcp.fin then { flow with dstFIN := true } else flow
        if fl.srcFIN && tcp.ack then { fl with srcACK := true } else fl
    if flow1.srcFIN && flow1.srcACK && flow1.dstFIN && flow1.dstACK then
      (flow1, some FlowEndReason.endOfFlow)
    else (flow1, none)

/-- Deliver a sequence of TCP packet events to a flow, collecting the
export performed at each event. -/
def runEvents (s : TCPState) : List TCPPacket → TCPState × List (Option FlowEndReason)
  | [] => (s, [])
  | p :: ps =>
    let r := tcpEvent s p
    let rest := runEvents r.1 ps
    (rest.1, r.2 :: rest.2)

/-- Embedding of packetBuffer restricted to the field release reads: the
atomic in-use flag (an int32, modelled as Int). -/
structure packetBuffer where
  inUse : Int
deriving DecidableEq

/-- Embedding of the multiPacketBuffer fields used by release. Counters
are int32 in Go; they are modelled as unbounded Int since the claims
under verification perform no arithmetic near the int32 bounds. -/
structure multiPacketBuffer where
  numFree : Int
  allocSize : Int
  buffers : List packetBuffer
deriving DecidableEq

/-- Zero value standing for a nil packetBuffer pointer slot left in the
rebuilt list when fewer entries were written than its length. -/
def nilBuffer : packetBuffer := ⟨0⟩

/-- Loop of the release method: walk the buffers, keep every in-use
buffer, keep an unused buffer once freed has reached allocSize, and drop
(count in freed) an unused buffer otherwise. Kept buffers are written at
increasing indices of the new list of capacity cap; a write at an index
not below cap is a Go runtime panic, modelled as none. -/
def releaseGo (alloc : Int) (cap : Nat) :
    List packetBuffer → List packetBuffer → Int → Option (List packetBuffer × Int)
  | [], newlist, freed => some (newlist, freed)
  | b :: rest, newlist, freed =>
    if b.inUse ≠ 0 then
      if newlist.length < cap then releaseGo alloc cap rest (newlist ++ [b]) freed
      else none
    else if freed = alloc then
      if newlist.length < cap then releaseGo alloc cap rest (newlist ++ [b]) freed
      else none
    else releaseGo alloc cap rest newlist (freed + 1)

/-- Embedding of the multiPacketBuffer release method: allocate a new
list of length len(buffers) - allocSize (a negative length is a Go make
panic, modelled as none), run the loop, install the new list and
decrement numFree by the number of buffers dropped. -/
def multiPacketBuffer.release (mpb : multiPacketBuffer) : Option multiPacketBuffer :=
  if (mpb.buffers.length : Int) - mpb.allocSize < 0 then none
  else
    let cap := ((mpb.buffers.length : Int) - mpb.allocSize).toNat
    match releaseGo mpb.allocSize cap mpb.buffers [] 0 with
    | none => none
    | some (newlist, freed) =>
      some { mpb with
             buffers := newlist ++ List.replicate (cap - newlist.length) nilBuffer,
             numFree := mpb.numFree - freed }

/-- Number of buffers of a pool whose in-use flag is zero. -/
def countUnused (bs : List packetBuffer) : Nat :=
  (bs.filter fun b => b.inUse == 0).length

/-- A collection of packet filters. A filter is modelled as its Matches
predicate on the (layer type, data, capture info, packet number)
arguments, abstracted into a single input type. -/
abbrev Filters (α : Type) : Type := List (α → Bool)

/-- Embedding of the Filters Matches method: try the filters one after
another, returning false at the first filter that rejects the packet,
and true when every filter accepted it. -/
def Filters.Matches {α : Type} (f : Filters α) (x : α) : Bool :=
  match f with
  | [] => true
  | filt :: rest => if !(filt x) then false else Filters.Matches rest x


lemma compareBytes_eq_iff : ∀ a b : List Nat, compareBytes a b = Ordering.eq ↔ a = b := by
  intro a
  induction a with
  | nil => intro b; cases b <;> simp [compareBytes]
  | cons x xs ih =>
    intro b
    cases b with
    | nil => simp [compareBytes]
    | cons y ys =>
      by_cases hxy : x < y
      · simp [compareBytes, hxy]
        intro h
        omega
      · by_cases hyx : y < x
        · simp [compareBytes, hxy, hyx]
          intro h
          omega
        · have hxy2 : x = y := by omega
          simp [compareBytes, hxy, hyx, hxy2, ih]

lemma compareBytes_swap : ∀ a b : List Nat, compareBytes b a = (compareBytes a b).swap := by
  intro a
  induction a with
  | nil => intro b; cases b <;> simp [compareBytes, Ordering.swap]
  | cons x xs ih =>
    intro b
    cases b with
    | nil => simp [compareBytes, Ordering.swap]
    | cons y ys =>
      by_cases hxy : x < y
      · have hyx : ¬ y < x := by omega
        simp [compareBytes, hxy, hyx, Ordering.swap]
      · by_cases hyx : y < x
        · simp [compareBytes, hxy, hyx, Ordering.swap]
        · simp [compareBytes, hxy, hyx, ih]

lemma lexLt_iff (a b : List Nat) : lexLt a b = true ↔ compareBytes a b = Ordering.lt := by
  unfold lexLt
  cases h : compareBytes a b <;> simp

lemma lexLe_iff (a b : List Nat) : lexLe a b = true ↔ compareBytes a b ≠ Ordering.gt := by
  unfold lexLe
  cases h : compareBytes a b <;> simp

lemma compareBytes_gt_iff (a b : List Nat) :
    compareBytes a b = Ordering.gt ↔ compareBytes b a = Ordering.lt := by
  rw [compareBytes_swap a b]
  cases h : compareBytes a b <;> simp [Ordering.swap]

lemma not_lexLt_self (a : List Nat) : lexLt a a = false := by
  have h : compareBytes a a = Ordering.eq := (compareBytes_eq_iff a a).mpr rfl
  unfold lexLt
  rw [h]

/-- C1: for every packet with network and transport layers, the flow-key
canonicalization of the fivetuple function follows the canonicalization
rules of the specification exactly: when dstIP is smaller
byte-lexicographically the addresses are swapped and the ports are
swapped unless the transport is an IP-control type; else when the
addresses are equal and srcPort is smaller the ports are swapped under
the same exemption; and the forward bit is true exactly when no swap
occurred. -/
theorem canonicalize_follows_spec (t : RawTuple) : canonicalize t = spec_canonicalize t := by
  unfold canonicalize spec_canonicalize
  by_cases h1 : lexLt t.dstIP t.srcIP
  · by_cases h2 : ipControl t.proto <;> simp [h1, h2]
  · by_cases h2 : compareBytes t.srcIP t.dstIP = Ordering.eq
    · by_cases h3 : lexLt t.srcPort t.dstPort
      · have heq : t.srcIP = t.dstIP := (compareBytes_eq_iff _ _).mp h2
        by_cases h4 : ipControl t.proto <;> simp [h1, h2, h3, h4, heq]
      · simp [h1, h2, h3]
    · simp [h1, h2]

/-- C2 counterexample: a TCP packet with equal source and destination
addresses and srcPort 1 smaller than dstPort 2 produces a canonical key
whose address fields are equal while its dstPort field is strictly
smaller than its srcPort field, so the claimed ordering invariant
(srcIP, srcPort) less-or-equal (dstIP, dstPort) fails on the key. -/
theorem canonical_key_ordering_cex :
    fivetuple ⟨[10, 0, 0, 1], [10, 0, 0, 1], LayerType.tcp, [0, 1], [0, 2]⟩ =
      some ([10, 0, 0, 1, 10, 0, 0, 1, 6, 0, 2, 0, 1], false) ∧
    fiveTuple4SrcIP [10, 0, 0, 1, 10, 0, 0, 1, 6, 0, 2, 0, 1] =
      fiveTuple4DstIP [10, 0, 0, 1, 10, 0, 0, 1, 6, 0, 2, 0, 1] ∧
    lexLt (fiveTuple4DstPort [10, 0, 0, 1, 10, 0, 0, 1, 6, 0, 2, 0, 1])
      (fiveTuple4SrcPort [10, 0, 0, 1, 10, 0, 0, 1, 6, 0, 2, 0, 1]) = true := by
  decide

/-- C2 amended: the canonical tuple orders the addresses ascending
byte-lexicographically, and when the two addresses are equal and the
transport is not an IP-control type the dstPort of the key is
less-or-equal its srcPort (the larger port becomes the source port, the
reverse of the ordering stated in the claim). -/
theorem canonical_key_ordering (t : RawTuple) :
    lexLe (canonicalize t).1.srcIP (canonicalize t).1.dstIP = true ∧
    ((canonicalize t).1.srcIP = (canonicalize t).1.dstIP → ipControl t.proto = false →
      lexLe (canonicalize t).1.dstPort (canonicalize t).1.srcPort = true) := by
  unfold canonicalize
  by_cases h1 : lexLt t.dstIP t.srcIP
  · have hlt : compareBytes t.dstIP t.srcIP = Ordering.lt := (lexLt_iff _ _).mp h1
    have hle : lexLe t.dstIP t.srcIP = true := by
      rw [lexLe_iff, hlt]
      simp
    have hne : t.dstIP ≠ t.srcIP := by
      intro he
      rw [(compareBytes_eq_iff _ _).mpr he] at hlt
      simp at hlt
    by_cases h2 : ipControl t.proto <;> simp [h1, h2, hle, hne]
  · by_cases h2 : compareBytes t.srcIP t.dstIP = Ordering.eq
    · have hle : lexLe t.srcIP t.dstIP = true := by
        rw [lexLe_iff, h2]
        simp
      by_cases h3 : lexLt t.srcPort t.dstPort
      · have hple : lexLe t.srcPort t.dstPort = true := by
          rw [lexLe_iff]
          rw [lexLt_iff] at h3
          rw [h3]
          simp
        have hle2 : lexLe t.dstIP t.srcIP = true := by
          rw [lexLe_iff, compareBytes_swap, h2]
          simp [Ordering.swap]
        by_cases h4 : ipControl t.proto <;> simp [h1, h2, h3, h4, hle, hle2, hple]
      · have hple : lexLe t.dstPort t.srcPort = true := by
          rw [lexLe_iff, compareBytes_swap]
          rw [lexLt_iff] at h3
          cases hp : compareBytes t.srcPort t.dstPort <;> simp [hp, Ordering.swap] at h3 ⊢
        simp only [if_neg h1, if_pos h2, if_neg h3]
        exact ⟨hle, fun _ _ => hple⟩
    · have hle : lexLe t.srcIP t.dstIP = true := by
        rw [lexLe_iff]
        intro hgt
        rw [compareBytes_gt_iff] at hgt
        rw [← lexLt_iff] at hgt
        exact h1 hgt
      simp only [if_neg h1, if_neg h2]
      refine ⟨hle, fun heq _ => ?_⟩
      exact absurd ((compareBytes_eq_iff _ _).mpr heq) h2

/-- C2 amended witness at a concrete equal-address TCP tuple. -/
theorem canonical_key_ordering_witness :
    ((canonicalize ⟨[10, 0, 0, 1], [10, 0, 0, 1], LayerType.tcp, [0, 1], [0, 2]⟩).1.srcIP =
      (canonicalize ⟨[10, 0, 0, 1], [10, 0, 0, 1], LayerType.tcp, [0, 1], [0, 2]⟩).1.dstIP) ∧
    lexLe (canonicalize ⟨[10, 0, 0, 1], [10, 0, 0, 1], LayerType.tcp, [0, 1], [0, 2]⟩).1.dstPort
      (canonicalize ⟨[10, 0, 0, 1], [10, 0, 0, 1], LayerType.tcp, [0, 1], [0, 2]⟩).1.srcPort = true :=
  ⟨by decide,
   (canonical_key_ordering ⟨[10, 0, 0, 1], [10, 0, 0, 1], LayerType.tcp, [0, 1], [0, 2]⟩).2
     (by decide) (by decide)⟩

lemma lexLt_true_of_lt {a b : List Nat} (h : compareBytes a b = Ordering.lt) :
    lexLt a b = true := by
  unfold lexLt
  rw [h]

lemma lexLt_false_of_eq {a b : List Nat} (h : compareBytes a b = Ordering.eq) :
    lexLt a b = false := by
  unfold lexLt
  rw [h]

lemma lexLt_false_of_gt {a b : List Nat} (h : compareBytes a b = Ordering.gt) :
    lexLt a b = false := by
  unfold lexLt
  rw [h]

lemma canon_reverse_fst (t : RawTuple) (hic : ipControl t.proto = false) :
    (canonicalize (reverseTuple t)).1 = (canonicalize t).1 := by
  obtain ⟨s, d, pr, sp, dp⟩ := t
  simp only [reverseTuple] at *
  cases hc : compareBytes s d with
  | lt =>
    have hds : compareBytes d s = Ordering.gt := by rw [compareBytes_swap, hc]; rfl
    simp [canonicalize, lexLt_true_of_lt hc, lexLt_false_of_gt hds, hc, hds, hic]
  | eq =>
    have heq : s = d := (compareBytes_eq_iff s d).mp hc
    have hds : compareBytes d s = Ordering.eq := by rw [compareBytes_swap, hc]; rfl
    cases hp : compareBytes sp dp with
    | lt =>
      have hpd : compareBytes dp sp = Ordering.gt := by rw [compareBytes_swap, hp]; rfl
      simp [canonicalize, lexLt_false_of_eq hc, lexLt_false_of_eq hds, hc, hds,
        lexLt_true_of_lt hp, lexLt_false_of_gt hpd, hic]
    | eq =>
      have heqp : sp = dp := (compareBytes_eq_iff sp dp).mp hp
      have hpd : compareBytes dp sp = Ordering.eq := by rw [compareBytes_swap, hp]; rfl
      simp [canonicalize, lexLt_false_of_eq hc, lexLt_false_of_eq hds, hc, hds,
        lexLt_false_of_eq hp, lexLt_false_of_eq hpd, heq, heqp]
    | gt =>
      have hpd : compareBytes dp sp = Ordering.lt := by rw [compareBytes_swap, hp]; rfl
      simp [canonicalize, lexLt_false_of_eq hc, lexLt_false_of_eq hds, hc, hds,
        lexLt_false_of_gt hp, lexLt_true_of_lt hpd, hic]
  | gt =>
    have hds : compareBytes d s = Ordering.lt := by rw [compareBytes_swap, hc]; rfl
    simp [canonicalize, lexLt_false_of_gt hc, lexLt_true_of_lt hds, hc, hds, hic]

lemma canon_reverse_snd (t : RawTuple) (hic : ipControl t.proto = false)
    (hdeg : ¬(t.srcIP = t.dstIP ∧ t.srcPort = t.dstPort)) :
    (canonicalize (reverseTuple t)).2 = !(canonicalize t).2 := by
  obtain ⟨s, d, pr, sp, dp⟩ := t
  simp only [reverseTuple] at *
  cases hc : compareBytes s d with
  | lt =>
    have hds : compareBytes d s = Ordering.gt := by rw [compareBytes_swap, hc]; rfl
    simp [canonicalize, lexLt_true_of_lt hc, lexLt_false_of_gt hds, hc, hds, hic]
  | eq =>
    have heq : s = d := (compareBytes_eq_iff s d).mp hc
    have hds : compareBytes d s = Ordering.eq := by rw [compareBytes_swap, hc]; rfl
    cases hp : compareBytes sp dp with
    | lt =>
      have hpd : compareBytes dp sp = Ordering.gt := by rw [compareBytes_swap, hp]; rfl
      simp [canonicalize, lexLt_false_of_eq hc, lexLt_false_of_eq hds, hc, hds,
        lexLt_true_of_lt hp, lexLt_false_of_gt hpd, hic]
    | eq =>
      have heqp : sp = dp := (compareBytes_eq_iff sp dp).mp hp
      exact absurd ⟨heq, heqp⟩ hdeg
    | gt =>
      have hpd : compareBytes dp sp = Ordering.lt := by rw [compareBytes_swap, hp]; rfl
      simp [canonicalize, lexLt_false_of_eq hc, lexLt_false_of_eq hds, hc, hds,
        lexLt_false_of_gt hp, lexLt_true_of_lt hpd, hic]
  | gt =>
    have hds : compareBytes d s = Ordering.lt := by rw [compareBytes_swap, hc]; rfl
    simp [canonicalize, lexLt_false_of_gt hc, lexLt_true_of_lt hds, hc, hds, hic]

/-- C3 counterexample: a TCP packet whose raw five-tuple is its own
reverse (equal addresses and equal ports) forms a reversed pair with
itself, yet both directions receive forward = true, so the claimed
inequality of the forward bits fails for this pair even though the
transport is not an IP-control type. -/
theorem reversed_pair_forward_cex :
    reverseTuple ⟨[1, 1, 1, 1], [1, 1, 1, 1], LayerType.tcp, [0, 5], [0, 5]⟩ =
      ⟨[1, 1, 1, 1], [1, 1, 1, 1], LayerType.tcp, [0, 5], [0, 5]⟩ ∧
    ipControl LayerType.tcp = false ∧
    (fivetuple ⟨[1, 1, 1, 1], [1, 1, 1, 1], LayerType.tcp, [0, 5], [0, 5]⟩).map Prod.snd =
      some true ∧
    (fivetuple (reverseTuple ⟨[1, 1, 1, 1], [1, 1, 1, 1], LayerType.tcp, [0, 5], [0, 5]⟩)).map
      Prod.snd = some true := by
  decide

/-- C3 amended: for every pair of packets whose raw five-tuples are
exact reverses of each other, with a transport that is not an IP-control
type and a five-tuple that is not its own reverse, the key-construction
function produces the same canonical key for both and opposite forward
bits. (The counterexample forces the exclusion of self-reversed
five-tuples, for which both directions are forward.) -/
theorem reversed_pair_same_key_opposite_forward (t : RawTuple) (k : List Nat) (f : Bool)
    (hic : ipControl t.proto = false)
    (hdeg : ¬(t.srcIP = t.dstIP ∧ t.srcPort = t.dstPort))
    (hkey : fivetuple t = some (k, f)) :
    fivetuple (reverseTuple t) = some (k, !f) := by
  have hfst := canon_reverse_fst t hic
  have hsnd := canon_reverse_snd t hic hdeg
  simp only [fivetuple] at hkey ⊢
  rw [hfst, hsnd]
  by_cases h4 : (canonicalize t).1.srcIP.length = 4
  · rw [if_pos h4] at hkey ⊢
    injection hkey with hk
    injection hk with hk1 hk2
    rw [hk1, hk2]
  · by_cases h16 : (canonicalize t).1.srcIP.length = 16
    · rw [if_neg h4, if_pos h16] at hkey ⊢
      injection hkey with hk
      injection hk with hk1 hk2
      rw [hk1, hk2]
    · rw [if_neg h4, if_neg h16] at hkey
      exact absurd hkey (by simp)

/-- C3 amended witness at a concrete UDP pair. -/
theorem reversed_pair_same_key_opposite_forward_witness :
    fivetuple (reverseTuple ⟨[1, 0, 0, 1], [9, 0, 0, 1], LayerType.udp, [0, 10], [0, 20]⟩) =
      some ([1, 0, 0, 1, 9, 0, 0, 1, 17, 0, 10, 0, 20], false) :=
  reversed_pair_same_key_opposite_forward
    ⟨[1, 0, 0, 1], [9, 0, 0, 1], LayerType.udp, [0, 10], [0, 20]⟩
    [1, 0, 0, 1, 9, 0, 0, 1, 17, 0, 10, 0, 20] true
    (by decide) (by decide) (by decide)

/-- C4: for every TCP packet event delivered to an active TCP flow, an
RST exports with reason end; otherwise a FIN records srcFIN in the
forward direction or dstFIN in the reverse direction, an ACK whose
opposite FIN was previously recorded records dstACK respectively srcACK,
and the flow exports with reason end exactly when all four bits are set
after the update; in particular the graceful teardown sequence FIN
forward, ACK reverse, FIN reverse, ACK forward exports exactly on the
last ACK. -/
theorem tcp_teardown_events (s : TCPState) (p : TCPPacket) :
    (p.rst = true → tcpEvent s p = (s, some FlowEndReason.endOfFlow)) ∧
    (p.rst = false →
      ((tcpEvent s p).1.srcFIN = (s.srcFIN || (p.forward && p.fin))) ∧
      ((tcpEvent s p).1.dstFIN = (s.dstFIN || (!p.forward && p.fin))) ∧
      ((tcpEvent s p).1.dstACK = (s.dstACK || (p.forward && s.dstFIN && p.ack))) ∧
      ((tcpEvent s p).1.srcACK = (s.srcACK || (!p.forward && s.srcFIN && p.ack))) ∧
      ((tcpEvent s p).2 = some FlowEndReason.endOfFlow ↔
        ((tcpEvent s p).1.srcFIN && (tcpEvent s p).1.dstFIN &&
         (tcpEvent s p).1.srcACK && (tcpEvent s p).1.dstACK) = true)) ∧
    runEvents ⟨false, false, false, false⟩
      [⟨false, true, false, true⟩, ⟨false, false, true, false⟩,
       ⟨false, true, false, false⟩, ⟨false, false, true, true⟩] =
      (⟨true, true, true, true⟩, [none, none, none, some FlowEndReason.endOfFlow]) := by
  obtain ⟨a, b, c, d⟩ := s
  obtain ⟨r, fi, ac, fw⟩ := p
  revert a b c d r fi ac fw
  decide

/-- C4 witness: an RST packet on a flow with no bits set exports with
reason end. -/
theorem tcp_teardown_events_witness :
    tcpEvent ⟨false, false, false, false⟩ ⟨true, false, false, true⟩ =
      (⟨false, false, false, false⟩, some FlowEndReason.endOfFlow) :=
  (tcp_teardown_events ⟨false, false, false, false⟩ ⟨true, false, false, true⟩).1 rfl

/-- Accumulator update of the expire loop for an entry that is pending
but not yet due: take the new time when no candidate was seen yet or the
new time is not later than the accumulator. -/
def nextStep (acc ww : Nat) : Nat :=
  if acc = 0 ∨ ww ≤ acc then ww else acc

/-- Scheduled times of the entries that stay pending through an expire
at time w: nonzero and strictly later than w. -/
def candWhens (w : Nat) (es : List funcEntry) : List Nat :=
  (es.filter fun v => v.context.When != 0 && !(decide (v.context.When ≤ w))).map
    fun v => v.context.When

lemma expireGo_fired (w : Nat) :
    ∀ (es : List funcEntry) (i next : Nat),
      (expireGo w es i next).2.2 = (List.enumFrom i es).filter fun p => eligible w p.2 := by
  intro es
  induction es with
  | nil => intro i next; simp [expireGo]
  | cons v rest ih =>
    intro i next
    by_cases h1 : v.context.When = 0
    · have he : eligible w v = false := by simp [eligible, h1]
      simp [expireGo, h1, List.enumFrom, he, ih]
    · by_cases h2 : v.context.When ≤ w
      · have he : eligible w v = true := by simp [eligible, h1, h2]
        simp [expireGo, h1, h2, List.enumFrom, he, ih]
      · have he : eligible w v = false := by simp [eligible, h2]
        simp [expireGo, h1, h2, List.enumFrom, he, ih]

lemma expireGo_entries (w : Nat) :
    ∀ (es : List funcEntry) (i next : Nat),
      (expireGo w es i next).1 =
        es.map fun v => if eligible w v then { v with context := ⟨0⟩ } else v := by
  intro es
  induction es with
  | nil => intro i next; simp [expireGo]
  | cons v rest ih =>
    intro i next
    by_cases h1 : v.context.When = 0
    · have he : eligible w v = false := by simp [eligible, h1]
      simp [expireGo, h1, he, ih]
    · by_cases h2 : v.context.When ≤ w
      · have he : eligible w v = true := by simp [eligible, h1, h2]
        simp [expireGo, h1, h2, he, ih]
      · have he : eligible w v = false := by simp [eligible, h2]
        simp [expireGo, h1, h2, he, ih]

lemma expireGo_next (w : Nat) :
    ∀ (es : List funcEntry) (i next : Nat),
      (expireGo w es i next).2.1 = List.foldl nextStep next (candWhens w es) := by
  intro es
  induction es with
  | nil => intro i next; simp [expireGo, candWhens]
  | cons v rest ih =>
    intro i next
    by_cases h1 : v.context.When = 0
    · simp [expireGo, h1, candWhens, ih]
    · by_cases h2 : v.context.When ≤ w
      · simp [expireGo, h1, h2, candWhens, ih]
      · simp [expireGo, h1, h2, candWhens, ih, nextStep]

lemma mem_candWhens {w : Nat} {es : List funcEntry} {x : Nat} (hx : x ∈ candWhens w es) :
    x ≠ 0 ∧ w < x := by
  unfold candWhens at hx
  rcases List.mem_map.mp hx with ⟨v, hvf, rfl⟩
  have hp := (List.mem_filter.mp hvf).2
  simp only [Bool.and_eq_true, bne_iff_ne, Bool.not_eq_true', decide_eq_false_iff_not] at hp
  exact ⟨hp.1, by omega⟩

lemma foldl_nextStep_spec :
    ∀ (cand : List Nat), (∀ x ∈ cand, 0 < x) → ∀ a : Nat,
      (List.foldl nextStep a cand = 0 ↔ (a = 0 ∧ cand = [])) ∧
      (List.foldl nextStep a cand ≠ 0 →
        ((List.foldl nextStep a cand ∈ cand ∨ List.foldl nextStep a cand = a) ∧
         (∀ x ∈ cand, List.foldl nextStep a cand ≤ x) ∧
         (a ≠ 0 → List.foldl nextStep a cand ≤ a))) := by
  intro cand
  induction cand with
  | nil =>
    intro _ a
    simp
  | cons ww rest ih =>
    intro hpos a
    have hw : 0 < ww := hpos ww (by simp)
    have hrest : ∀ x ∈ rest, 0 < x := fun x hx => hpos x (by simp [hx])
    by_cases hstep : a = 0 ∨ ww ≤ a
    · have hfold : List.foldl nextStep a (ww :: rest) = List.foldl nextStep ww rest := by
        simp [nextStep, hstep]
      obtain ⟨ih1, ih2⟩ := ih hrest ww
      constructor
      · rw [hfold, ih1]
        constructor
        · intro h
          omega
        · intro h
          exact absurd h.2 (by simp)
      · intro hne
        rw [hfold] at hne ⊢
        obtain ⟨hm, hle, hacc⟩ := ih2 hne
        refine ⟨?_, ?_, ?_⟩
        · rcases hm with hm | hm
          · exact Or.inl (by simp [hm])
          · exact Or.inl (by simp [hm])
        · intro x hx
          rcases List.mem_cons.mp hx with hx | hx
          · subst hx
            have := hacc (by omega)
            omega
          · exact hle x hx
        · intro hane
          have h1 := hacc (by omega)
          rcases hstep with h | h
          · exact absurd h hane
          · omega
    · have hfold : List.foldl nextStep a (ww :: rest) = List.foldl nextStep a rest := by
        simp [nextStep, hstep]
      push_neg at hstep
      obtain ⟨ha0, hwa⟩ := hstep
      obtain ⟨ih1, ih2⟩ := ih hrest a
      constructor
      · rw [hfold, ih1]
        constructor
        · intro h
          exact absurd h.1 ha0
        · intro h
          exact absurd h.2 (by simp)
      · intro hne
        rw [hfold] at hne ⊢
        obtain ⟨hm, hle, hacc⟩ := ih2 hne
        refine ⟨?_, ?_, ?_⟩
        · rcases hm with hm | hm
          · exact Or.inl (by simp [hm])
          · exact Or.inr hm
        · intro x hx
          rcases List.mem_cons.mp hx with hx | hx
          · subst hx
            have := hacc ha0
            omega
          · exact hle x hx
        · intro _
          exact hacc ha0

lemma pendingWhens_after_expire (w : Nat) :
    ∀ es : List funcEntry,
      pendingWhens (es.map fun v => if eligible w v then { v with context := ⟨0⟩ } else v) =
        candWhens w es := by
  intro es
  induction es with
  | nil => simp [pendingWhens, candWhens]
  | cons v rest ih =>
    by_cases h1 : v.context.When = 0
    · have he : eligible w v = false := by simp [eligible, h1]
      simp [pendingWhens, candWhens, he, h1] at ih ⊢
      exact ih
    · by_cases h2 : v.context.When ≤ w
      · have he : eligible w v = true := by simp [eligible, h1, h2]
        simp [pendingWhens, candWhens, he, h1, h2] at ih ⊢
        exact ih
      · have he : eligible w v = false := by simp [eligible, h2]
        simp [pendingWhens, candWhens, he, h1, h2] at ih ⊢
        exact ih

/-- C5: expire at time now fires exactly the entries whose scheduled
time is nonzero and at most now, invoking them (with their stored
context and the time now) in ascending TimerID order, clears the fired
entries and leaves every other entry unchanged; every entry that remains
pending is scheduled strictly after now, and the returned next is zero
when no pending entry remains and otherwise is the earliest remaining
scheduled time. -/
theorem expire_fires_eligible (es : List funcEntry) (now : Nat) :
    (funcEntries.expire es now).2.2 = (es.enum.filter fun p => eligible now p.2) ∧
    (funcEntries.expire es now).1 =
      (es.map fun v => if eligible now v then { v with context := ⟨0⟩ } else v) ∧
    (∀ x ∈ pendingWhens (funcEntries.expire es now).1, now < x) ∧
    ((funcEntries.expire es now).2.1 = 0 ↔ pendingWhens (funcEntries.expire es now).1 = []) ∧
    ((funcEntries.expire es now).2.1 ≠ 0 →
      (funcEntries.expire es now).2.1 ∈ pendingWhens (funcEntries.expire es now).1 ∧
      ∀ x ∈ pendingWhens (funcEntries.expire es now).1,
        (funcEntries.expire es now).2.1 ≤ x) := by
  have hf := expireGo_fired now es 0 0
  have hen := expireGo_entries now es 0 0
  have hnx := expireGo_next now es 0 0
  have hpend : pendingWhens (expireGo now es 0 0).1 = candWhens now es := by
    rw [hen]
    exact pendingWhens_after_expire now es
  have hpos : ∀ x ∈ candWhens now es, 0 < x := by
    intro x hx
    have := mem_candWhens hx
    omega
  obtain ⟨hz, hmin⟩ := foldl_nextStep_spec (candWhens now es) hpos 0
  refine ⟨hf, hen, ?_, ?_, ?_⟩
  · intro x hx
    rw [funcEntries.expire, hpend] at hx
    exact (mem_candWhens hx).2
  · rw [funcEntries.expire, hnx, hpend, hz]
    simp
  · intro hne
    rw [funcEntries.expire] at hne ⊢
    rw [hnx] at hne ⊢
    obtain ⟨hm, hle, _⟩ := hmin hne
    rw [hpend]
    refine ⟨?_, hle⟩
    rcases hm with hm | hm
    · exact hm
    · exact absurd hm hne

/-- C5 witness at a concrete two-entry timer array with one due and one
future timer. -/
theorem expire_fires_eligible_witness :
    (funcEntries.expire [⟨1, ⟨3⟩⟩, ⟨2, ⟨7⟩⟩] 5).2.1 ∈
      pendingWhens (funcEntries.expire [⟨1, ⟨3⟩⟩, ⟨2, ⟨7⟩⟩] 5).1 :=
  ((expire_fires_eligible [⟨1, ⟨3⟩⟩, ⟨2, ⟨7⟩⟩] 5).2.2.2.2 (by decide)).1

lemma expire_twice_fired (t : Nat) :
    ∀ (es : List funcEntry) (i1 n1 i2 n2 : Nat),
      (expireGo t (expireGo t es i1 n1).1 i2 n2).2.2 = [] := by
  intro es
  induction es with
  | nil => intro i1 n1 i2 n2; simp [expireGo]
  | cons v rest ih =>
    intro i1 n1 i2 n2
    by_cases h1 : v.context.When = 0
    · simp [expireGo, h1, ih]
    · by_cases h2 : v.context.When ≤ t
      · simp [expireGo, h1, h2, ih]
      · simp [expireGo, h1, h2, ih]

/-- C6: expire is idempotent when callbacks do not re-schedule timers
(callbacks have no effect on the timer array in this model): the first
expire at time t fires exactly the eligible entries, once each, and a
second expire at the same time fires nothing. -/
theorem expire_idempotent (es : List funcEntry) (t : Nat) :
    (funcEntries.expire es t).2.2 = (es.enum.filter fun p => eligible t p.2) ∧
    (funcEntries.expire (funcEntries.expire es t).1 t).2.2 = [] :=
  ⟨expireGo_fired t es 0 0, expire_twice_fired t es 0 0 0 0⟩

/-- C7 code-bug evaluation: on the fresh two-entry timer array of
makeFuncEntries, addTimer with TimerID 3 appends len - id + 1 = 0
entries and then stores at index 3, out of bounds (a Go runtime panic,
modelled as none), and TimerID 4 asks make for a negative length; the
specified behavior is to grow the array so that its length is at least
id + 1 before storing. -/
theorem addTimer_out_of_bounds :
    funcEntries.addTimer makeFuncEntries 3 1 ⟨5⟩ = none ∧
    funcEntries.addTimer makeFuncEntries 4 1 ⟨5⟩ = none := by
  decide

lemma canonicalize_fields (t : RawTuple) :
    ((canonicalize t).1.srcIP = t.srcIP ∨ (canonicalize t).1.srcIP = t.dstIP) ∧
    ((canonicalize t).1.dstIP = t.srcIP ∨ (canonicalize t).1.dstIP = t.dstIP) ∧
    ((canonicalize t).1.srcPort = t.srcPort ∨ (canonicalize t).1.srcPort = t.dstPort) ∧
    ((canonicalize t).1.dstPort = t.srcPort ∨ (canonicalize t).1.dstPort = t.dstPort) ∧
    (canonicalize t).1.proto = t.proto := by
  unfold canonicalize
  split_ifs <;> simp

lemma fill_eq {n : Nat} {xs : List Nat} (h : xs.length = n) : fill n xs = xs := by
  unfold fill
  subst h
  simp

/-- C8: for every packet with network and transport layers whose two
addresses have the same length (as gopacket flow endpoints do) and whose
raw ports are 2 bytes, the constructed key is the concatenation of the
canonicalized srcIP, dstIP, protocol byte, srcPort and dstPort in wire
order, 13 bytes for 4-byte addresses and 37 bytes for 16-byte ones; the
protocol byte is the IANA number for TCP, UDP, ICMPv4, ICMPv6 and zero
for any other transport; and for any other address length no key is
produced. -/
theorem fivetuple_key_layout (t : RawTuple)
    (hlen : t.srcIP.length = t.dstIP.length)
    (hsp : t.srcPort.length = 2) (hdp : t.dstPort.length = 2) :
    (∀ k f, fivetuple t = some (k, f) →
      k = (canonicalize t).1.srcIP ++ (canonicalize t).1.dstIP ++
          [protoByte t.proto] ++ (canonicalize t).1.srcPort ++ (canonicalize t).1.dstPort ∧
      f = (canonicalize t).2 ∧
      (t.srcIP.length = 4 → k.length = 13) ∧
      (t.srcIP.length = 16 → k.length = 37)) ∧
    ((t.srcIP.length = 4 ∨ t.srcIP.length = 16) → ∃ kf, fivetuple t = some kf) ∧
    (t.srcIP.length ≠ 4 → t.srcIP.length ≠ 16 → fivetuple t = none) ∧
    (protoByte LayerType.tcp = 6 ∧ protoByte LayerType.udp = 17 ∧
     protoByte LayerType.icmp4 = 1 ∧ protoByte LayerType.icmp6 = 58 ∧
     ∀ n, protoByte (LayerType.other n) = 0) := by
  obtain ⟨hcs, hcd, hcp, hcq, hcproto⟩ := canonicalize_fields t
  have hcs_len : (canonicalize t).1.srcIP.length = t.srcIP.length := by
    rcases hcs with h | h
    · rw [h]
    · rw [h, ← hlen]
  have hcd_len : (canonicalize t).1.dstIP.length = t.srcIP.length := by
    rcases hcd with h | h
    · rw [h]
    · rw [h, ← hlen]
  have hcp_len : (canonicalize t).1.srcPort.length = 2 := by
    rcases hcp with h | h
    · rw [h, hsp]
    · rw [h, hdp]
  have hcq_len : (canonicalize t).1.dstPort.length = 2 := by
    rcases hcq with h | h
    · rw [h, hsp]
    · rw [h, hdp]
  have hkeyform : ∀ m : Nat, (canonicalize t).1.srcIP.length = m → (m = 4 ∨ m = 16) →
      fivetuple t = some ((canonicalize t).1.srcIP ++ (canonicalize t).1.dstIP ++
        [protoByte t.proto] ++ (canonicalize t).1.srcPort ++ (canonicalize t).1.dstPort,
        (canonicalize t).2) := by
    intro m hm hm2
    simp only [fivetuple]
    rcases hm2 with h | h
    · subst h
      rw [if_pos hm, fill_eq hm, fill_eq (by rw [hcd_len, ← hcs_len, hm]),
        fill_eq hcp_len, fill_eq hcq_len, hcproto]
    · subst h
      rw [if_neg (by omega), if_pos hm, fill_eq hm,
        fill_eq (by rw [hcd_len, ← hcs_len, hm]), fill_eq hcp_len, fill_eq hcq_len, hcproto]
  refine ⟨?_, ?_, ?_, by decide, by decide, by decide, by decide, fun n => rfl⟩
  · intro k f hk
    by_cases h4 : t.srcIP.length = 4
    · have := hkeyform 4 (by omega) (Or.inl rfl)
      rw [this] at hk
      injection hk with hk
      injection hk with hk1 hk2
      refine ⟨hk1.symm, hk2.symm, fun _ => ?_, fun h => by omega⟩
      rw [← hk1]
      simp [hcs_len, hcd_len, hcp_len, hcq_len, h4]
    · by_cases h16 : t.srcIP.length = 16
      · have := hkeyform 16 (by omega) (Or.inr rfl)
        rw [this] at hk
        injection hk with hk
        injection hk with hk1 hk2
        refine ⟨hk1.symm, hk2.symm, fun h => by omega, fun _ => ?_⟩
        rw [← hk1]
        simp [hcs_len, hcd_len, hcp_len, hcq_len, h16]
      · simp only [fivetuple] at hk
        rw [if_neg (by omega), if_neg (by omega)] at hk
        exact absurd hk (by simp)
  · intro h
    rcases h with h | h
    · exact ⟨_, hkeyform 4 (by omega) (Or.inl rfl)⟩
    · exact ⟨_, hkeyform 16 (by omega) (Or.inr rfl)⟩
  · intro h4 h16
    simp only [fivetuple]
    rw [if_neg (by omega), if_neg (by omega)]

/-- C8 witness at a concrete IPv4 TCP tuple. -/
theorem fivetuple_key_layout_witness :
    ∃ kf, fivetuple ⟨[1, 2, 3, 4], [5, 6, 7, 8], LayerType.tcp, [0, 80], [0, 81]⟩ = some kf :=
  (fivetuple_key_layout ⟨[1, 2, 3, 4], [5, 6, 7, 8], LayerType.tcp, [0, 80], [0, 81]⟩
    rfl rfl rfl).2.1 (Or.inl rfl)

lemma countUnused_cons_inuse {b : packetBuffer} {bs : List packetBuffer}
    (h : b.inUse ≠ 0) : countUnused (b :: bs) = countUnused bs := by
  simp [countUnused, h]

lemma countUnused_cons_unused {b : packetBuffer} {bs : List packetBuffer}
    (h : b.inUse = 0) : countUnused (b :: bs) = countUnused bs + 1 := by
  simp [countUnused, h, List.filter_cons]

lemma releaseGo_spec (alloc : Int) (cap : Nat) :
    ∀ (bs acc : List packetBuffer) (freed : Int),
      0 ≤ alloc → 0 ≤ freed → freed ≤ alloc →
      alloc - freed ≤ (countUnused bs : Int) →
      (acc.length : Int) + bs.length = (cap : Int) + (alloc - freed) →
      ∃ rest, releaseGo alloc cap bs acc freed = some (acc ++ rest, alloc) ∧
        rest.Sublist bs ∧
        rest.filter (fun b => b.inUse != 0) = bs.filter (fun b => b.inUse != 0) ∧
        (rest.length : Int) = (bs.length : Int) - (alloc - freed) := by
  intro bs
  induction bs with
  | nil =>
    intro acc freed _ _ hfa hcu hlen
    simp only [countUnused, List.filter_nil, List.length_nil, Nat.cast_zero] at hcu
    have hfe : freed = alloc := by omega
    refine ⟨[], ?_, List.nil_sublist _, rfl, by simp only [List.length_nil, Nat.cast_zero]; omega⟩
    simp [releaseGo, hfe]
  | cons b bs2 ih =>
    intro acc freed hal hf0 hfa hcu hlen
    have hfl : countUnused bs2 ≤ bs2.length := List.length_filter_le _ _
    by_cases hbu : b.inUse ≠ 0
    · have hcu2 : countUnused (b :: bs2) = countUnused bs2 := countUnused_cons_inuse hbu
      rw [hcu2] at hcu
      have hbound : acc.length < cap := by
        simp only [List.length_cons] at hlen
        omega
      obtain ⟨rest, hrec, hsub, hfil, hlenr⟩ :=
        ih (acc ++ [b]) freed hal hf0 hfa hcu (by simp at hlen ⊢; omega)
      refine ⟨b :: rest, ?_, List.cons_sublist_cons.mpr hsub, ?_, ?_⟩
      · simp only [releaseGo, if_pos hbu, if_pos hbound]
        rw [hrec]
        simp
      · simp only [List.filter_cons]
        have : (b.inUse != 0) = true := by simpa using hbu
        rw [this]
        simp only [if_pos rfl, hfil]
      · simp at hlenr ⊢
        omega
    · push_neg at hbu
      have hcu2 : countUnused (b :: bs2) = countUnused bs2 + 1 := countUnused_cons_unused hbu
      rw [hcu2] at hcu
      have hbne : (b.inUse != 0) = false := by simp [hbu]
      have hnn : ¬(b.inUse ≠ 0) := fun h => h hbu
      by_cases hfe : freed = alloc
      · have hbound : acc.length < cap := by
          simp only [List.length_cons] at hlen
          omega
        obtain ⟨rest, hrec, hsub, hfil, hlenr⟩ :=
          ih (acc ++ [b]) freed hal hf0 hfa (by omega) (by simp at hlen ⊢; omega)
        refine ⟨b :: rest, ?_, List.cons_sublist_cons.mpr hsub, ?_, ?_⟩
        · simp only [releaseGo, if_neg hnn, if_pos hfe, if_pos hbound]
          rw [hrec]
          simp
        · simp only [List.filter_cons, hbne]
          simp only [Bool.false_eq_true, if_false, hfil]
        · simp at hlenr ⊢
          omega
      · obtain ⟨rest, hrec, hsub, hfil, hlenr⟩ :=
          ih acc (freed + 1) hal (by omega) (by omega) (by omega)
            (by simp at hlen ⊢; omega)
        refine ⟨rest, ?_, hsub.cons b, ?_, ?_⟩
        · simp only [releaseGo, if_neg hnn, if_neg hfe]
          exact hrec
        · simp only [List.filter_cons, hbne]
          simp only [Bool.false_eq_true, if_false, hfil]
        · simp at hlenr ⊢
          omega

/-- C9 counterexample: a pool with one buffer that is in use and
allocSize 1 has fewer than allocSize unused buffers; release rebuilds
into a new list of length zero and its first write is out of bounds (a
Go runtime panic, modelled as none), refuting the claim that release
performs no out-of-bounds write in this situation. -/
theorem release_oob_cex :
    countUnused [(⟨1⟩ : packetBuffer)] = 0 ∧
    multiPacketBuffer.release ⟨0, 1, [⟨1⟩]⟩ = none := by
  decide

/-- C9 amended: provided at least allocSize buffers are unused, release
keeps every in-use buffer (the kept buffers are a sublist of the pool
with the in-use ones preserved exactly), removes exactly allocSize
unused buffers, and decrements the free counter by exactly that number,
with no out-of-bounds write; the counterexample forces the restriction
to pools with at least allocSize unused buffers. -/
theorem release_drops_unused (mpb : multiPacketBuffer)
    (hpos : 0 ≤ mpb.allocSize)
    (hunused : mpb.allocSize ≤ (countUnused mpb.buffers : Int)) :
    ∃ m2, multiPacketBuffer.release mpb = some m2 ∧
      m2.buffers.Sublist mpb.buffers ∧
      m2.buffers.filter (fun b => b.inUse != 0) =
        mpb.buffers.filter (fun b => b.inUse != 0) ∧
      (m2.buffers.length : Int) = (mpb.buffers.length : Int) - mpb.allocSize ∧
      m2.numFree = mpb.numFree - mpb.allocSize ∧
      m2.allocSize = mpb.allocSize := by
  have hfl : countUnused mpb.buffers ≤ mpb.buffers.length := List.length_filter_le _ _
  have hge : ¬ ((mpb.buffers.length : Int) - mpb.allocSize < 0) := by omega
  have hcap : ((((mpb.buffers.length : Int) - mpb.allocSize).toNat : Nat) : Int) =
      (mpb.buffers.length : Int) - mpb.allocSize := Int.toNat_of_nonneg (by omega)
  obtain ⟨rest, hrec, hsub, hfil, hlenr⟩ :=
    releaseGo_spec mpb.allocSize ((mpb.buffers.length : Int) - mpb.allocSize).toNat
      mpb.buffers [] 0 hpos le_rfl hpos (by omega) (by simp; omega)
  have hrl : (rest.length : Int) = (mpb.buffers.length : Int) - mpb.allocSize := by omega
  refine ⟨{ mpb with buffers := rest, numFree := mpb.numFree - mpb.allocSize }, ?_,
    hsub, hfil, by simpa using hrl, rfl, rfl⟩
  simp only [multiPacketBuffer.release, if_neg hge]
  rw [hrec]
  simp only [List.nil_append]
  have hz : ((mpb.buffers.length : Int) - mpb.allocSize).toNat - rest.length = 0 := by
    omega
  rw [hz]
  simp

/-- C9 amended witness at a concrete pool with one in-use and two unused
buffers and allocSize 1. -/
theorem release_drops_unused_witness :
    ∃ m2, multiPacketBuffer.release ⟨5, 1, [⟨1⟩, ⟨0⟩, ⟨0⟩]⟩ = some m2 ∧
      m2.buffers.Sublist [⟨1⟩, ⟨0⟩, ⟨0⟩] ∧
      m2.buffers.filter (fun b => b.inUse != 0) =
        List.filter (fun b => b.inUse != 0) [⟨1⟩, ⟨0⟩, ⟨0⟩] ∧
      (m2.buffers.length : Int) = (3 : Int) - 1 ∧
      m2.numFree = 5 - 1 ∧
      m2.allocSize = 1 :=
  release_drops_unused ⟨5, 1, [⟨1⟩, ⟨0⟩, ⟨0⟩]⟩ (by decide) (by decide)

/-- C10: Matches returns true exactly when every filter of the
collection accepts the packet; the empty collection matches every
packet; and the filters are tried in order, the first rejecting filter
deciding the result regardless of the filters after it. -/
theorem filters_matches_all {α : Type} (fs : Filters α) (x : α) :
    Filters.Matches fs x = List.all fs (fun g => g x) ∧
    Filters.Matches ([] : Filters α) x = true ∧
    (∀ (gs hs : Filters α) (g : α → Bool), (∀ g2 ∈ gs, g2 x = true) → g x = false →
      Filters.Matches (gs ++ g :: hs) x = false) := by
  have hall : ∀ l : List (α → Bool), Filters.Matches l x = List.all l fun g => g x := by
    intro l
    induction l with
    | nil => rfl
    | cons g rest ih =>
      by_cases hg : g x
      · simp [Filters.Matches, hg, ih]
      · simp [Filters.Matches, hg]
  refine ⟨hall fs, rfl, ?_⟩
  intro gs hs g hgs hg
  induction gs with
  | nil => simp [Filters.Matches, hg]
  | cons g2 gs2 ih =>
    have h2 : g2 x = true := hgs g2 (by simp)
    have hrest := ih fun g3 h3 => hgs g3 (by simp [h3])
    simp only [List.cons_append, Filters.Matches, h2, Bool.not_true, Bool.false_eq_true,
      if_false]
    exact hrest

/-- C10 witness: a collection whose first filter accepts and whose
second rejects the packet does not match it. -/
theorem filters_matches_all_witness :
    Filters.Matches (([fun _ => true] ++ (fun _ => false) :: []) : Filters Nat) 3 = false :=
  (filters_matches_all ([] : Filters Nat) 3).2.2 [fun _ => true] [] (fun _ => false)
    (by
      intro g2 h2
      rw [List.mem_singleton] at h2
      subst h2
      rfl)
    rfl
